import Mathlib

/-!
Shallow embedding of the sequence / ordering logic of the project-management
backend (src/controllers/v1/project_state.go and src/controllers/v1/issue.go).

The database is modelled as a list of rows.  A gorm `Save` call updates the row
whose primary key matches.  A transaction that rolls back is modelled by an
`Except` error value: no state is returned, so no partial write persists.
Timestamps are integers; `deleted_at IS NULL` is `DeletedAt = none`.

The models live in the external `san-data-systems/common` module whose source is
not part of this repository; their shape is fixed by the controllers: the code
assigns `projectState.DeletedAt = &now` (a `*time.Time`, not `gorm.DeletedAt`),
so gorm v2 applies no automatic soft-delete scoping — a query filters removed
rows out only when it says `deleted_at IS NULL` explicitly.

Go's `int32(x)` conversion truncates to 32 bits (two's complement); it is
modelled by `toInt32`.
-/

namespace Workflow

/-- Two's-complement truncation to 32 bits, modelling Go's `int32(x)` conversion
applied to a wider integer. -/
def toInt32 (x : Int) : Int :=
  (x + 2 ^ 31) % 2 ^ 32 - 2 ^ 31

/-- A row of the `project_states` table (fields used by the controllers). -/
structure ProjectState where
  ID : Nat
  ProjectID : Nat
  Name : String
  Sequence : Int
  DeletedAt : Option Int
deriving DecidableEq, Repr

/-- A row of the `issues` table (fields used by the sequencing logic). -/
structure Issue where
  ID : Nat
  ProjectID : Nat
  StateID : Nat
  SequenceID : Int
  DeletedAt : Option Int
deriving DecidableEq, Repr

/-- Error outcomes surfaced by the handlers (each aborts the transaction). -/
inductive ApiError where
  | notFound
  | conflict
  | internalServer
deriving DecidableEq, Repr

deriving instance DecidableEq for Except

/-- A gorm `tx.Save(&u)`: overwrite the row whose primary key equals `u.ID`. -/
def save (db : List ProjectState) (u : ProjectState) : List ProjectState :=
  db.map fun s => if s.ID == u.ID then u else s

/-- A sequence of `Save` calls, applied left to right. -/
def saveAll (db : List ProjectState) (upds : List ProjectState) : List ProjectState :=
  upds.foldl save db

/-- The states of project `pid` that are not soft-deleted
(`project_id = ? AND deleted_at IS NULL`), in table order. -/
def liveStates (db : List ProjectState) (pid : Nat) : List ProjectState :=
  db.filter fun s => s.ProjectID == pid && s.DeletedAt == none

/-- The `Sequence` values of the live states of project `pid`. -/
def liveSequences (db : List ProjectState) (pid : Nat) : List Int :=
  (liveStates db pid).map (·.Sequence)

/-- `ORDER BY sequence ASC` comparison on states. -/
def stateLE (a b : ProjectState) : Prop := a.Sequence ≤ b.Sequence

/-- Strictly increasing `sequence` comparison (used to reason about uniqueness
of the sorted order when sequences are distinct). -/
def stateLT (a b : ProjectState) : Prop := a.Sequence < b.Sequence

instance : DecidableRel stateLE := fun a b => (inferInstance : Decidable (a.Sequence ≤ b.Sequence))

instance : DecidableRel stateLT := fun a b => (inferInstance : Decidable (a.Sequence < b.Sequence))

instance : IsTotal ProjectState stateLE := ⟨fun a b => Int.le_total a.Sequence b.Sequence⟩

instance : IsTrans ProjectState stateLE := ⟨fun _ _ _ h h' => le_trans h h'⟩

instance : IsTrans ProjectState stateLT := ⟨fun _ _ _ h h' => lt_trans h h'⟩

instance : IsAntisymm ProjectState stateLT :=
  ⟨fun _ _ h h' => absurd h' (not_lt_of_lt h)⟩

/-- `CreateProjectState` core (src/controllers/v1/project_state.go, lines 49-76):
count the existing states of the project — the `Count` filters on
`project_id = ?` only, soft-deleted states included — and insert the new state
with `Sequence = int32(existingCount + 1)`.  Returns the new table and the
created row. -/
def CreateProjectState (db : List ProjectState) (pid : Nat) (newID : Nat) (name : String) :
    List ProjectState × ProjectState :=
  let existingCount := (db.filter fun s => s.ProjectID == pid).length
  let projectState : ProjectState :=
    { ID := newID, ProjectID := pid, Name := name,
      Sequence := toInt32 ((existingCount : Int) + 1), DeletedAt := none }
  (db ++ [projectState], projectState)

/-- The resequencing loop of `DeleteProjectStateByID` (lines 335-343):
`for i, state := range remainingStates { state.Sequence = int32(i + 1); tx.Save(&state) }`.
Returns the rows as saved, in loop order; `i` is the running index. -/
def resequenceFrom (i : Nat) : List ProjectState → List ProjectState
  | [] => []
  | s :: rest => { s with Sequence := toInt32 ((i : Int) + 1) } :: resequenceFrom (i + 1) rest

/-- Lines 323-343 of `DeleteProjectStateByID`: fetch the remaining live states of
the project ordered by `sequence ASC`, then save every one of them with
`Sequence = int32(position + 1)`.  Returns the updated table together with the
ids of the rows written by the loop. -/
def compactProjectStates (db : List ProjectState) (pid : Nat) :
    List ProjectState × List Nat :=
  let remainingStates := List.insertionSort stateLE (liveStates db pid)
  let reseq := resequenceFrom 0 remainingStates
  (saveAll db reseq, reseq.map (·.ID))

/-- `DeleteProjectStateByID` core (lines 283-352): fetch the state
(`id = ? AND project_id = ? AND deleted_at IS NULL`, else `NotFound`); refuse
with `Conflict` if any non-deleted issue references it; soft-delete it; then
compact the remaining sequences.  An error rolls the transaction back, so the
table is unchanged in that case.  On success, returns the new table and the ids
written by the compaction loop. -/
def DeleteProjectStateByID (db : List ProjectState) (issues : List Issue)
    (pid : Nat) (sid : Nat) (now : Int) :
    Except ApiError (List ProjectState × List Nat) :=
  match db.find? fun s => s.ID == sid && s.ProjectID == pid && s.DeletedAt == none with
  | none => .error .notFound
  | some projectState =>
    let issueCount := (issues.filter fun i => i.StateID == sid && i.DeletedAt == none).length
    if 0 < issueCount then
      .error .conflict
    else
      let db1 := save db { projectState with DeletedAt := some now }
      .ok (compactProjectStates db1 pid)

/-- The loop of `UpdateProjectStatesSequence` (lines 466-485): for each listed
id, fetch the state with `id = ? AND project_id = ?` — note: no
`deleted_at IS NULL` filter — answering `NotFound` (and rolling back) when no
row matches, otherwise save it with `Sequence = int32(index + 1)`. -/
def updateStatesSequenceLoop (pid : Nat) :
    List ProjectState → List Nat → Nat → Except ApiError (List ProjectState)
  | db, [], _ => .ok db
  | db, stageID :: rest, index =>
    match db.find? fun s => s.ID == stageID && s.ProjectID == pid with
    | none => .error .notFound
    | some projectState =>
      updateStatesSequenceLoop pid
        (save db { projectState with Sequence := toInt32 ((index : Int) + 1) })
        rest (index + 1)

/-- `UpdateProjectStatesSequence` core (lines 440-495): run the loop over the
submitted `stage_sequence` list starting at index 0.  No validation of the list
(completeness, duplicates) happens before or after the loop. -/
def UpdateProjectStatesSequence (db : List ProjectState) (pid : Nat)
    (stageSequence : List Nat) : Except ApiError (List ProjectState) :=
  updateStatesSequenceLoop pid db stageSequence 0

/-- `COALESCE(MAX(x), 0)`: the maximum of a list of integers, `0` when empty. -/
def maxSeqOf : List Int → Int
  | [] => 0
  | x :: xs => xs.foldl max x

/-- Lines 68-80 of `CreateIssue`:
`COALESCE(MAX(CAST(sequence_id AS INTEGER)), 0)` over the issues with
`project_id = ? AND deleted_at IS NULL`. -/
def maxSequenceID (issues : List Issue) (pid : Nat) : Int :=
  maxSeqOf ((issues.filter fun i => i.ProjectID == pid && i.DeletedAt == none).map (·.SequenceID))

/-- `CreateIssue` core (lines 68-80 and 142-162): the new issue gets
`SequenceID = int32(maxSeq + 1)`.  Returns the new table and the created row. -/
def CreateIssue (issues : List Issue) (pid : Nat) (newID : Nat) (stateID : Nat) :
    List Issue × Issue :=
  let sequenceID := maxSequenceID issues pid + 1
  let issue : Issue :=
    { ID := newID, ProjectID := pid, StateID := stateID,
      SequenceID := toInt32 sequenceID, DeletedAt := none }
  (issues ++ [issue], issue)

/-- `DeleteIssue` core (lines 813-868 of src/controllers/v1/issue.go): fetch the
issue (`id = ? AND deleted_at is NULL AND project_id = ?`, else `NotFound`) and
set its `deleted_at`.  No resequencing of the remaining issues happens. -/
def DeleteIssue (issues : List Issue) (pid : Nat) (iid : Nat) (now : Int) :
    Except ApiError (List Issue) :=
  match issues.find? fun i => i.ID == iid && i.DeletedAt == none && i.ProjectID == pid with
  | none => .error .notFound
  | some issue =>
    .ok (issues.map fun i => if i.ID == issue.ID then { i with DeletedAt := some now } else i)

/-- The dense target `[1, 2, ..., n]` as integers. -/
def denseTarget (n : Nat) : List Int :=
  (List.range n).map fun k : Nat => (k : Int) + 1

/-- A list of sequence values is dense when, as a multiset, it is exactly
`{1, ..., N}` for `N` its length. -/
def dense (l : List Int) : Prop :=
  List.Perm l (denseTarget l.length)

/-- The claim's notion of next sequence for project states: the maximum
`Sequence` among the live states (`0` when there are none). -/
def maxLiveStateSeq (db : List ProjectState) (pid : Nat) : Int :=
  maxSeqOf (liveSequences db pid)

/-- Sanity: `toInt32` is the identity on the int32 range. -/
theorem toInt32_eq_self {x : Int} (h0 : 0 ≤ x) (h : x < 2 ^ 31) : toInt32 x = x := by
  unfold toInt32
  rw [Int.emod_eq_of_lt (by omega) (by omega)]
  omega

instance (l : List Int) : Decidable (dense l) := by
  unfold dense
  infer_instance

/-! ### Helper lemmas about the embedded primitives -/

theorem le_foldl_max (l : List Int) (a : Int) : a ≤ l.foldl max a := by
  induction l generalizing a with
  | nil => exact le_refl a
  | cons y ys ih => exact le_trans (le_max_left a y) (ih (max a y))

theorem le_foldl_max_of_mem {l : List Int} {x : Int} (hx : x ∈ l) (a : Int) :
    x ≤ l.foldl max a := by
  induction l generalizing a with
  | nil => cases hx
  | cons y ys ih =>
    rcases List.mem_cons.mp hx with rfl | h
    · exact le_trans (le_max_right a x) (le_foldl_max ys (max a x))
    · exact ih h (max a y)

theorem le_maxSeqOf {l : List Int} {x : Int} (hx : x ∈ l) : x ≤ maxSeqOf l := by
  cases l with
  | nil => cases hx
  | cons y ys =>
    rcases List.mem_cons.mp hx with rfl | h
    · exact le_foldl_max ys x
    · exact le_foldl_max_of_mem h y

theorem save_map_ID (db : List ProjectState) (u : ProjectState) :
    (save db u).map (·.ID) = db.map (·.ID) := by
  unfold save
  rw [List.map_map]
  refine List.map_congr_left fun s _ => ?_
  by_cases h : s.ID = u.ID
  · simp [h]
  · simp [h]

theorem save_length (db : List ProjectState) (u : ProjectState) :
    (save db u).length = db.length := by
  unfold save
  exact List.length_map db _

theorem saveAll_map_ID (upds db : List ProjectState) :
    (saveAll db upds).map (·.ID) = db.map (·.ID) := by
  induction upds generalizing db with
  | nil => rfl
  | cons u rest ih =>
    show (saveAll (save db u) rest).map (·.ID) = _
    rw [ih, save_map_ID]

theorem saveAll_length (upds db : List ProjectState) :
    (saveAll db upds).length = db.length := by
  induction upds generalizing db with
  | nil => rfl
  | cons u rest ih =>
    show (saveAll (save db u) rest).length = _
    rw [ih, save_length]

theorem resequenceFrom_map_ID (i : Nat) (l : List ProjectState) :
    (resequenceFrom i l).map (·.ID) = l.map (·.ID) := by
  induction l generalizing i with
  | nil => rfl
  | cons s rest ih => simp [resequenceFrom, ih]

theorem resequenceFrom_length (i : Nat) (l : List ProjectState) :
    (resequenceFrom i l).length = l.length := by
  induction l generalizing i with
  | nil => rfl
  | cons s rest ih => simp [resequenceFrom, ih]

theorem resequenceFrom_map_Sequence (i : Nat) (l : List ProjectState) :
    (resequenceFrom i l).map (·.Sequence)
      = (List.range l.length).map fun k : Nat => toInt32 ((i : Int) + (k : Int) + 1) := by
  induction l generalizing i with
  | nil => rfl
  | cons s rest ih =>
    simp only [resequenceFrom, List.map_cons, List.length_cons, List.range_succ_eq_map,
      List.map_map, ih (i + 1), List.cons.injEq]
    constructor
    · congr 1
    · refine List.map_congr_left fun k _ => ?_
      rw [Function.comp_apply]
      congr 1
      push_cast
      ring

theorem mem_resequenceFrom {i : Nat} {l : List ProjectState} {u : ProjectState}
    (hu : u ∈ resequenceFrom i l) :
    ∃ s ∈ l, u.ID = s.ID ∧ u.ProjectID = s.ProjectID ∧ u.DeletedAt = s.DeletedAt := by
  induction l generalizing i with
  | nil => cases hu
  | cons s rest ih =>
    rcases List.mem_cons.mp hu with rfl | h
    · exact ⟨s, List.mem_cons_self s rest, rfl, rfl, rfl⟩
    · obtain ⟨t, ht, h1, h2, h3⟩ := ih h
      exact ⟨t, List.mem_cons_of_mem s ht, h1, h2, h3⟩

theorem resequenceFrom_idem (i : Nat) (l : List ProjectState) :
    resequenceFrom i (resequenceFrom i l) = resequenceFrom i l := by
  induction l generalizing i with
  | nil => rfl
  | cons s rest ih => simp [resequenceFrom, ih]

/-- The row that a batch of saves leaves at the position of `s`: the first
update with the same primary key when there is one, `s` itself otherwise. -/
def lookupSave (upds : List ProjectState) (s : ProjectState) : ProjectState :=
  match upds with
  | [] => s
  | u :: rest => if u.ID == s.ID then u else lookupSave rest s

theorem eq_of_ID_eq {db : List ProjectState} (hid : (db.map (·.ID)).Nodup)
    {s t : ProjectState} (hs : s ∈ db) (ht : t ∈ db) (h : s.ID = t.ID) : s = t :=
  List.inj_on_of_nodup_map hid hs ht h

theorem lookupSave_ID (upds : List ProjectState) (s : ProjectState) :
    (lookupSave upds s).ID = s.ID := by
  induction upds with
  | nil => rfl
  | cons u rest ih =>
    by_cases h : u.ID = s.ID
    · simp [lookupSave, h]
    · have hb : (u.ID == s.ID) = false := by simp [h]
      simpa [lookupSave, hb] using ih

theorem lookupSave_of_not_mem {upds : List ProjectState} {s : ProjectState}
    (h : ¬∃ u ∈ upds, u.ID = s.ID) : lookupSave upds s = s := by
  induction upds with
  | nil => rfl
  | cons u rest ih =>
    have hu : ¬u.ID = s.ID := fun hEq => h ⟨u, List.mem_cons_self u rest, hEq⟩
    have hb : (u.ID == s.ID) = false := by simp [hu]
    simp only [lookupSave, hb, Bool.false_eq_true, if_false]
    exact ih fun hex => h ⟨hex.choose, List.mem_cons_of_mem u hex.choose_spec.1,
      hex.choose_spec.2⟩

/-- With pairwise-distinct primary keys among the updated rows, a run of `Save`
calls acts as a pointwise lookup by primary key. -/
theorem saveAll_eq_lookup {upds : List ProjectState} (h : (upds.map (·.ID)).Nodup)
    (db : List ProjectState) :
    saveAll db upds = db.map (lookupSave upds) := by
  induction upds generalizing db with
  | nil =>
    show db = db.map (lookupSave [])
    simp [lookupSave]
  | cons u rest ih =>
    simp only [List.map_cons, List.nodup_cons, List.mem_map] at h
    obtain ⟨hu, hrest⟩ := h
    show saveAll (save db u) rest = _
    rw [ih hrest, save, List.map_map]
    refine List.map_congr_left fun s _ => ?_
    rw [Function.comp_apply]
    by_cases hsu : s.ID = u.ID
    · have hb : (s.ID == u.ID) = true := beq_iff_eq.mpr hsu
      have hb' : (u.ID == s.ID) = true := beq_iff_eq.mpr hsu.symm
      have hlu : lookupSave rest u = u :=
        lookupSave_of_not_mem fun hex => hu ⟨hex.choose, hex.choose_spec.1, hex.choose_spec.2⟩
      simp [lookupSave, hb, hb', hlu]
    · have hb : (s.ID == u.ID) = false := by simp [hsu]
      have hb' : (u.ID == s.ID) = false := by
        simp only [beq_eq_false_iff_ne, ne_eq]
        exact fun hEq => hsu hEq.symm
      simp [lookupSave, hb, hb']

theorem lookupSave_idem (upds : List ProjectState) (s : ProjectState) :
    lookupSave upds (lookupSave upds s) = lookupSave upds s := by
  induction upds with
  | nil => rfl
  | cons u rest ih =>
    by_cases h : u.ID = s.ID
    · have hb : (u.ID == s.ID) = true := beq_iff_eq.mpr h
      simp [lookupSave, hb]
    · have hb : (u.ID == s.ID) = false := by simp [h]
      have hb2 : (u.ID == (lookupSave rest s).ID) = false := by
        rw [lookupSave_ID]
        exact hb
      simp [lookupSave, hb, hb2, ih]

theorem saveAll_saveAll {upds : List ProjectState} (h : (upds.map (·.ID)).Nodup)
    (db : List ProjectState) :
    saveAll (saveAll db upds) upds = saveAll db upds := by
  rw [saveAll_eq_lookup h, saveAll_eq_lookup h, List.map_map]
  refine List.map_congr_left fun s _ => ?_
  rw [Function.comp_apply, lookupSave_idem]

/-- Applying the saved-row lookup of a resequenced list back to the original
list reproduces the resequenced list (primary keys pairwise distinct). -/
theorem map_lookup_resequenceFrom {l : List ProjectState} (h : (l.map (·.ID)).Nodup)
    (i : Nat) : l.map (lookupSave (resequenceFrom i l)) = resequenceFrom i l := by
  induction l generalizing i with
  | nil => rfl
  | cons s rest ih =>
    simp only [List.map_cons, List.nodup_cons, List.mem_map] at h
    obtain ⟨hs, hrest⟩ := h
    simp only [resequenceFrom, List.map_cons, List.cons.injEq]
    refine ⟨by simp [lookupSave], ?_⟩
    have step : ∀ t ∈ rest, lookupSave ({ s with Sequence := toInt32 ((i : Int) + 1) }
        :: resequenceFrom (i + 1) rest) t = lookupSave (resequenceFrom (i + 1) rest) t := by
      intro t ht
      have hne : ¬s.ID = t.ID := fun hEq => hs ⟨t, ht, hEq.symm⟩
      have hb : (s.ID == t.ID) = false := by simp [hne]
      simp [lookupSave, hb]
    rw [List.map_congr_left step, ih hrest]

theorem filter_map_eq {l : List ProjectState} {f : ProjectState → ProjectState}
    {p : ProjectState → Bool} (h : ∀ s ∈ l, p (f s) = p s) :
    (l.map f).filter p = (l.filter p).map f := by
  induction l with
  | nil => rfl
  | cons s rest ih =>
    simp only [List.map_cons, List.filter_cons, h s (List.mem_cons_self s rest)]
    by_cases hp : p s
    · simp only [if_pos hp, List.map_cons]
      rw [ih fun t ht => h t (List.mem_cons_of_mem s ht)]
    · simp only [if_neg hp]
      exact ih fun t ht => h t (List.mem_cons_of_mem s ht)


theorem lookupSave_cases (upds : List ProjectState) (s : ProjectState) :
    lookupSave upds s = s ∨ ∃ u ∈ upds, u.ID = s.ID ∧ lookupSave upds s = u := by
  induction upds with
  | nil => exact Or.inl rfl
  | cons u rest ih =>
    by_cases h : u.ID = s.ID
    · have hb : (u.ID == s.ID) = true := beq_iff_eq.mpr h
      exact Or.inr ⟨u, List.mem_cons_self u rest, h, by simp [lookupSave, hb]⟩
    · have hb : (u.ID == s.ID) = false := by simp [h]
      have heq : lookupSave (u :: rest) s = lookupSave rest s := by
        simp [lookupSave, hb]
      rcases ih with h1 | ⟨v, hv, hvid, hveq⟩
      · exact Or.inl (heq.trans h1)
      · exact Or.inr ⟨v, List.mem_cons_of_mem u hv, hvid, heq.trans hveq⟩

theorem filter_eq_of_mem {l : List ProjectState} {p q : ProjectState → Bool}
    (h : ∀ s ∈ l, p s = q s) : l.filter p = l.filter q := by
  induction l with
  | nil => rfl
  | cons s rest ih =>
    have hrest := ih fun t ht => h t (List.mem_cons_of_mem s ht)
    simp only [List.filter_cons, h s (List.mem_cons_self s rest), hrest]

theorem liveStates_map_of_preserve {db : List ProjectState}
    {f : ProjectState → ProjectState}
    (h : ∀ s ∈ db, (f s).ProjectID = s.ProjectID ∧ (f s).DeletedAt = s.DeletedAt)
    (pid : Nat) : liveStates (db.map f) pid = (liveStates db pid).map f := by
  unfold liveStates
  exact filter_map_eq fun s hs => by rw [(h s hs).1, (h s hs).2]

theorem liveStates_save_dead {u : ProjectState} (hu : u.DeletedAt ≠ none)
    (db : List ProjectState) (pid : Nat) :
    liveStates (save db u) pid = (liveStates db pid).filter fun s => !(s.ID == u.ID) := by
  have hdeadb : (u.DeletedAt == none) = false := by
    cases hda : u.DeletedAt with
    | none => exact absurd hda hu
    | some t => rfl
  induction db with
  | nil => rfl
  | cons s rest ih =>
    show liveStates ((if (s.ID == u.ID) = true then u else s) :: save rest u) pid = _
    by_cases hsu : s.ID = u.ID
    · have hb : (s.ID == u.ID) = true := beq_iff_eq.mpr hsu
      by_cases hlive : (s.ProjectID == pid && s.DeletedAt == none) = true
      · simp [liveStates, List.filter_cons, hb, hdeadb, hlive] at ih ⊢
        exact ih
      · have hlive' : (s.ProjectID == pid && s.DeletedAt == none) = false :=
          Bool.not_eq_true _ ▸ (by simpa using hlive)
        simp [liveStates, List.filter_cons, hb, hdeadb, hlive'] at ih ⊢
        exact ih
    · have hb : (s.ID == u.ID) = false := by simp [hsu]
      by_cases hlive : (s.ProjectID == pid && s.DeletedAt == none) = true
      · simp [liveStates, List.filter_cons, hb, hdeadb, hlive] at ih ⊢
        exact ih
      · have hlive' : (s.ProjectID == pid && s.DeletedAt == none) = false :=
          Bool.not_eq_true _ ▸ (by simpa using hlive)
        simp [liveStates, List.filter_cons, hb, hdeadb, hlive'] at ih ⊢
        exact ih


theorem nodup_ID_filter {db : List ProjectState} (h : (db.map (·.ID)).Nodup)
    (p : ProjectState → Bool) : ((db.filter p).map (·.ID)).Nodup :=
  List.Nodup.sublist (List.Sublist.map _ (List.filter_sublist db)) h

theorem nodup_ID_liveStates {db : List ProjectState} (h : (db.map (·.ID)).Nodup)
    (pid : Nat) : ((liveStates db pid).map (·.ID)).Nodup :=
  nodup_ID_filter h _

theorem nodup_ID_sort {l : List ProjectState} (h : (l.map (·.ID)).Nodup) :
    ((List.insertionSort stateLE l).map (·.ID)).Nodup :=
  (List.Perm.nodup_iff
    (List.Perm.map (fun s : ProjectState => s.ID) (List.perm_insertionSort stateLE l))).mpr h

theorem nodup_ID_resequenceFrom {l : List ProjectState} (h : (l.map (·.ID)).Nodup)
    (i : Nat) : ((resequenceFrom i l).map (·.ID)).Nodup := by
  rw [resequenceFrom_map_ID]
  exact h

theorem sorted_le_insertionSort (l : List ProjectState) :
    List.Sorted stateLE (List.insertionSort stateLE l) :=
  List.sorted_insertionSort stateLE l

theorem sorted_lt_of_sorted_le {l : List ProjectState} (hs : List.Sorted stateLE l)
    (hn : (l.map (·.Sequence)).Nodup) : List.Sorted stateLT l := by
  have hne : l.Pairwise fun a b => a.Sequence ≠ b.Sequence := List.pairwise_map.mp hn
  have hand := List.Pairwise.and hs hne
  exact hand.imp fun h => lt_of_le_of_ne h.1 h.2

theorem sorted_lt_resequenceFrom {i : Nat} {l : List ProjectState}
    (h : (i : Int) + l.length < 2 ^ 31) : List.Sorted stateLT (resequenceFrom i l) := by
  have hseq : List.Pairwise (· < ·) ((resequenceFrom i l).map (·.Sequence)) := by
    rw [resequenceFrom_map_Sequence]
    refine List.pairwise_map.mpr ?_
    have hr : (List.range l.length).Pairwise (· < ·) := List.pairwise_lt_range l.length
    refine List.Pairwise.imp_of_mem ?_ hr
    intro a b ha hb hab
    have hal : a < l.length := List.mem_range.mp ha
    have hbl : b < l.length := List.mem_range.mp hb
    have ha32 : toInt32 ((i : Int) + (a : Int) + 1) = (i : Int) + (a : Int) + 1 :=
      toInt32_eq_self (by omega) (by push_cast at h ⊢; omega)
    have hb32 : toInt32 ((i : Int) + (b : Int) + 1) = (i : Int) + (b : Int) + 1 :=
      toInt32_eq_self (by omega) (by push_cast at h ⊢; omega)
    rw [ha32, hb32]
    -- coercions already normal here
    omega
  have h2 : List.Pairwise (fun a b : ProjectState => a.Sequence < b.Sequence)
      (resequenceFrom i l) := List.pairwise_map.mp hseq
  exact h2


theorem nodup_seq_of_sorted_lt {l : List ProjectState} (h : List.Sorted stateLT l) :
    (l.map (·.Sequence)).Nodup :=
  List.pairwise_map.mpr (h.imp fun hlt => ne_of_lt hlt)

theorem liveStates_compact_perm {db : List ProjectState} (hid : (db.map (·.ID)).Nodup)
    (pid : Nat) :
    List.Perm (liveStates (compactProjectStates db pid).1 pid)
      (resequenceFrom 0 (List.insertionSort stateLE (liveStates db pid))) := by
  have hLid : ((liveStates db pid).map (·.ID)).Nodup := nodup_ID_liveStates hid pid
  have hremid : ((List.insertionSort stateLE (liveStates db pid)).map (·.ID)).Nodup :=
    nodup_ID_sort hLid
  have hrsid : ((resequenceFrom 0 (List.insertionSort stateLE (liveStates db pid))).map
      (·.ID)).Nodup := nodup_ID_resequenceFrom hremid 0
  have hsa : (compactProjectStates db pid).1
      = db.map (lookupSave (resequenceFrom 0 (List.insertionSort stateLE (liveStates db pid)))) :=
    saveAll_eq_lookup hrsid db
  have hpres : ∀ s ∈ db,
      ((lookupSave (resequenceFrom 0 (List.insertionSort stateLE (liveStates db pid))) s).ProjectID
        = s.ProjectID) ∧
      ((lookupSave (resequenceFrom 0 (List.insertionSort stateLE (liveStates db pid))) s).DeletedAt
        = s.DeletedAt) := by
    intro s hs
    rcases lookupSave_cases
        (resequenceFrom 0 (List.insertionSort stateLE (liveStates db pid))) s with
      heq | ⟨u, hu, hid', heq⟩
    · rw [heq]
      exact ⟨rfl, rfl⟩
    · obtain ⟨t, htrem, hID, hPID, hDA⟩ := mem_resequenceFrom hu
      have htL : t ∈ liveStates db pid :=
        (List.Perm.mem_iff (List.perm_insertionSort stateLE (liveStates db pid))).mp htrem
      have htdb : t ∈ db := List.mem_of_mem_filter htL
      have hts : t = s := eq_of_ID_eq hid htdb hs (by rw [← hID]; exact hid')
      rw [heq, hPID, hDA, hts]
      exact ⟨rfl, rfl⟩
  have h1 : liveStates (compactProjectStates db pid).1 pid
      = (liveStates db pid).map
        (lookupSave (resequenceFrom 0 (List.insertionSort stateLE (liveStates db pid)))) := by
    rw [hsa]
    exact liveStates_map_of_preserve hpres pid
  have h2 : (List.insertionSort stateLE (liveStates db pid)).map
      (lookupSave (resequenceFrom 0 (List.insertionSort stateLE (liveStates db pid))))
      = resequenceFrom 0 (List.insertionSort stateLE (liveStates db pid)) :=
    map_lookup_resequenceFrom hremid 0
  have hperm : List.Perm
      ((liveStates db pid).map
        (lookupSave (resequenceFrom 0 (List.insertionSort stateLE (liveStates db pid)))))
      ((List.insertionSort stateLE (liveStates db pid)).map
        (lookupSave (resequenceFrom 0 (List.insertionSort stateLE (liveStates db pid))))) :=
    List.Perm.map _ (List.Perm.symm (List.perm_insertionSort stateLE (liveStates db pid)))
  rw [h1]
  rw [h2] at hperm
  exact hperm

theorem compact_writes_perm (db : List ProjectState) (pid : Nat) :
    List.Perm (compactProjectStates db pid).2 ((liveStates db pid).map (·.ID)) := by
  show List.Perm ((resequenceFrom 0 (List.insertionSort stateLE (liveStates db pid))).map
    (·.ID)) _
  rw [resequenceFrom_map_ID]
  exact List.Perm.map _ (List.perm_insertionSort stateLE (liveStates db pid))


theorem dense_compact {db : List ProjectState} (hid : (db.map (·.ID)).Nodup)
    (pid : Nat) (h31 : ((liveStates db pid).length : Int) < 2 ^ 31) :
    dense (liveSequences (compactProjectStates db pid).1 pid) := by
  have hperm := liveStates_compact_perm hid pid
  have hseqperm : List.Perm (liveSequences (compactProjectStates db pid).1 pid)
      ((resequenceFrom 0 (List.insertionSort stateLE (liveStates db pid))).map (·.Sequence)) :=
    List.Perm.map _ hperm
  have hlenrem : (List.insertionSort stateLE (liveStates db pid)).length
      = (liveStates db pid).length :=
    (List.perm_insertionSort stateLE (liveStates db pid)).length_eq
  rw [resequenceFrom_map_Sequence, hlenrem] at hseqperm
  have htarget : (List.range (liveStates db pid).length).map
      (fun k : Nat => toInt32 (((0 : Nat) : Int) + (k : Int) + 1))
      = denseTarget (liveStates db pid).length := by
    unfold denseTarget
    refine List.map_congr_left fun k hk => ?_
    have hkl : k < (liveStates db pid).length := List.mem_range.mp hk
    rw [toInt32_eq_self (by omega) (by omega)]
    omega
  rw [htarget] at hseqperm
  have hlength : (liveSequences (compactProjectStates db pid).1 pid).length
      = (liveStates db pid).length := by
    rw [hseqperm.length_eq]
    unfold denseTarget
    rw [List.length_map, List.length_range]
  show List.Perm _ (denseTarget (liveSequences (compactProjectStates db pid).1 pid).length)
  rw [hlength]
  exact hseqperm


/-- After one compaction, sorting the live states by sequence reproduces the
resequenced list itself: its sequences are already `1..N` in order. -/
theorem sort_live_compact {db : List ProjectState} (hid : (db.map (·.ID)).Nodup)
    (pid : Nat) (h31 : ((liveStates db pid).length : Int) < 2 ^ 31) :
    List.insertionSort stateLE (liveStates (compactProjectStates db pid).1 pid)
      = resequenceFrom 0 (List.insertionSort stateLE (liveStates db pid)) := by
  have hperm := liveStates_compact_perm hid pid
  have hlenrem : (List.insertionSort stateLE (liveStates db pid)).length
      = (liveStates db pid).length :=
    (List.perm_insertionSort stateLE (liveStates db pid)).length_eq
  have hrsLT : List.Sorted stateLT
      (resequenceFrom 0 (List.insertionSort stateLE (liveStates db pid))) := by
    refine sorted_lt_resequenceFrom ?_
    rw [hlenrem]
    push_cast
    omega
  have hrsSeqNodup := nodup_seq_of_sorted_lt hrsLT
  have hsortperm : List.Perm
      (List.insertionSort stateLE (liveStates (compactProjectStates db pid).1 pid))
      (resequenceFrom 0 (List.insertionSort stateLE (liveStates db pid))) :=
    (List.perm_insertionSort stateLE _).trans hperm
  have hsortSeqNodup : ((List.insertionSort stateLE
      (liveStates (compactProjectStates db pid).1 pid)).map (·.Sequence)).Nodup :=
    (List.Perm.nodup_iff (List.Perm.map _ hsortperm)).mpr hrsSeqNodup
  have hsortLT : List.Sorted stateLT
      (List.insertionSort stateLE (liveStates (compactProjectStates db pid).1 pid)) :=
    sorted_lt_of_sorted_le (sorted_le_insertionSort _) hsortSeqNodup
  exact List.eq_of_perm_of_sorted hsortperm hsortLT hrsLT

/-- Running the compaction twice: the second run writes the same rows with the
same values and leaves the table unchanged. -/
theorem compact_idem {db : List ProjectState} (hid : (db.map (·.ID)).Nodup)
    (pid : Nat) (h31 : ((liveStates db pid).length : Int) < 2 ^ 31) :
    (compactProjectStates (compactProjectStates db pid).1 pid).1
        = (compactProjectStates db pid).1 ∧
      (compactProjectStates (compactProjectStates db pid).1 pid).2
        = (compactProjectStates db pid).2 := by
  have hsort := sort_live_compact hid pid h31
  have hLid : ((liveStates db pid).map (·.ID)).Nodup := nodup_ID_liveStates hid pid
  have hremid : ((List.insertionSort stateLE (liveStates db pid)).map (·.ID)).Nodup :=
    nodup_ID_sort hLid
  have hrsid : ((resequenceFrom 0 (List.insertionSort stateLE (liveStates db pid))).map
      (·.ID)).Nodup := nodup_ID_resequenceFrom hremid 0
  have hstep : resequenceFrom 0 (List.insertionSort stateLE
      (liveStates (compactProjectStates db pid).1 pid))
      = resequenceFrom 0 (List.insertionSort stateLE (liveStates db pid)) := by
    rw [hsort, resequenceFrom_idem]
  constructor
  case _ =>
    show saveAll (compactProjectStates db pid).1 _ = _
    rw [hstep]
    show saveAll (saveAll db _) _ = _
    exact saveAll_saveAll hrsid db
  case _ =>
    show (resequenceFrom 0 (List.insertionSort stateLE
      (liveStates (compactProjectStates db pid).1 pid))).map (·.ID) = _
    rw [hstep]
    rfl


theorem mem_liveStates {db : List ProjectState} {pid : Nat} {s : ProjectState} :
    s ∈ liveStates db pid ↔ s ∈ db ∧ s.ProjectID = pid ∧ s.DeletedAt = none := by
  unfold liveStates
  rw [List.mem_filter]
  simp [and_assoc]

theorem map_indexOf_self {ids : List Nat} (h : ids.Nodup) :
    ids.map (fun id => ids.indexOf id) = List.range ids.length := by
  induction ids with
  | nil => rfl
  | cons a l ih =>
    have ha : a ∉ l := (List.nodup_cons.mp h).1
    have hl : l.Nodup := (List.nodup_cons.mp h).2
    rw [List.length_cons, List.range_succ_eq_map, List.map_cons, List.indexOf_cons_self]
    congr 1
    rw [← ih hl, List.map_map]
    refine List.map_congr_left fun x hx => ?_
    have hax : a ≠ x := fun hEq => ha (hEq ▸ hx)
    rw [Function.comp_apply, List.indexOf_cons_ne _ hax]


theorem loop_error_of_missing {pid : Nat} :
    ∀ (ids : List Nat) (idx : Nat) (db : List ProjectState),
    (∃ id ∈ ids, ∀ s ∈ db, ¬(s.ID = id ∧ s.ProjectID = pid)) →
    updateStatesSequenceLoop pid db ids idx = .error .notFound := by
  intro ids
  induction ids with
  | nil =>
    intro idx db h
    obtain ⟨id, hid, _⟩ := h
    cases hid
  | cons id0 rest ih =>
    intro idx db h
    obtain ⟨bad, hbad, hno⟩ := h
    show (match db.find? fun s => s.ID == id0 && s.ProjectID == pid with
      | none => Except.error ApiError.notFound
      | some projectState => updateStatesSequenceLoop pid
          (save db { projectState with Sequence := toInt32 ((idx : Int) + 1) })
          rest (idx + 1)) = Except.error ApiError.notFound
    cases hfind : db.find? fun s => s.ID == id0 && s.ProjectID == pid with
    | none => rfl
    | some s1 =>
      have hs1mem : s1 ∈ db := List.mem_of_find?_eq_some hfind
      have hs1p := List.find?_some hfind
      simp only [Bool.and_eq_true, beq_iff_eq] at hs1p
      have hs1id : s1.ID = id0 := hs1p.1
      have hs1pid : s1.ProjectID = pid := hs1p.2
      have hbadrest : bad ∈ rest := by
        rcases List.mem_cons.mp hbad with rfl | hr
        · exact absurd ⟨hs1id, hs1pid⟩ (hno s1 hs1mem)
        · exact hr
      refine ih (idx + 1) _ ⟨bad, hbadrest, ?_⟩
      intro t ht hcon
      obtain ⟨t0, ht0, hft⟩ := List.mem_map.mp ht
      by_cases hb : t0.ID = s1.ID
      · have : t = { s1 with Sequence := toInt32 ((idx : Int) + 1) } := by
          rw [← hft]
          simp [beq_iff_eq.mpr hb]
        rw [this] at hcon
        exact hno s1 hs1mem ⟨by rw [← hcon.1, hs1id], hs1pid⟩
      · have : t = t0 := by
          rw [← hft]
          simp [hb]
        rw [this] at hcon
        exact hno t0 ht0 hcon

theorem loop_ok_of_allFound {pid : Nat} :
    ∀ (ids : List Nat) (idx : Nat) (db : List ProjectState),
    (∀ id ∈ ids, ∃ s ∈ db, s.ID = id ∧ s.ProjectID = pid) →
    ∃ db', updateStatesSequenceLoop pid db ids idx = .ok db' := by
  intro ids
  induction ids with
  | nil => exact fun idx db _ => ⟨db, rfl⟩
  | cons id0 rest ih =>
    intro idx db h
    obtain ⟨s0, hs0, hs0id, hs0pid⟩ := h id0 (List.mem_cons_self id0 rest)
    have hfindsome : (db.find? fun s => s.ID == id0 && s.ProjectID == pid).isSome :=
      List.find?_isSome.mpr ⟨s0, hs0, by simp [hs0id, hs0pid]⟩
    show ∃ db', (match db.find? fun s => s.ID == id0 && s.ProjectID == pid with
      | none => Except.error ApiError.notFound
      | some projectState => updateStatesSequenceLoop pid
          (save db { projectState with Sequence := toInt32 ((idx : Int) + 1) })
          rest (idx + 1)) = .ok db'
    cases hfind : db.find? fun s => s.ID == id0 && s.ProjectID == pid with
    | none => rw [hfind] at hfindsome; cases hfindsome
    | some s1 =>
      refine ih (idx + 1) _ ?_
      intro id' hid'
      obtain ⟨t, ht, htid, htpid⟩ := h id' (List.mem_cons_of_mem id0 hid')
      by_cases hb : t.ID = s1.ID
      · have hmem : { s1 with Sequence := toInt32 ((idx : Int) + 1) } ∈
            save db { s1 with Sequence := toInt32 ((idx : Int) + 1) } := by
          refine List.mem_map.mpr ⟨t, ht, ?_⟩
          simp [beq_iff_eq.mpr hb]
        have hs1p := List.find?_some hfind
        simp only [Bool.and_eq_true, beq_iff_eq] at hs1p
        refine ⟨_, hmem, ?_, ?_⟩
        · show s1.ID = id'
          rw [← hb, htid]
        · exact hs1p.2
      · have hmem : t ∈ save db { s1 with Sequence := toInt32 ((idx : Int) + 1) } := by
          refine List.mem_map.mpr ⟨t, ht, ?_⟩
          simp [hb]
        exact ⟨t, hmem, htid, htpid⟩


/-- The per-row effect of a successful explicit-reorder run starting at `idx`:
each listed row gets `int32(idx + position + 1)`, the rest are untouched. -/
def applyReorder (ids : List Nat) (idx : Nat) (db : List ProjectState) :
    List ProjectState :=
  db.map fun s =>
    if s.ID ∈ ids then
      { s with Sequence := toInt32 ((idx : Int) + (ids.indexOf s.ID : Int) + 1) }
    else s

theorem loop_eq_applyReorder {pid : Nat} :
    ∀ (ids : List Nat) (idx : Nat) (db : List ProjectState),
    ids.Nodup →
    (∀ id ∈ ids, ∃ s ∈ db, s.ID = id ∧ s.ProjectID = pid) →
    (db.map (·.ID)).Nodup →
    updateStatesSequenceLoop pid db ids idx = .ok (applyReorder ids idx db) := by
  intro ids
  induction ids with
  | nil =>
    intro idx db _ _ _
    show Except.ok db = _
    unfold applyReorder
    simp
  | cons id0 rest ih =>
    intro idx db hnd hcov hdbid
    have hnd0 : id0 ∉ rest := (List.nodup_cons.mp hnd).1
    have hndr : rest.Nodup := (List.nodup_cons.mp hnd).2
    obtain ⟨s0, hs0, hs0id, hs0pid⟩ := hcov id0 (List.mem_cons_self id0 rest)
    have hfindsome : (db.find? fun s => s.ID == id0 && s.ProjectID == pid).isSome :=
      List.find?_isSome.mpr ⟨s0, hs0, by simp [hs0id, hs0pid]⟩
    show (match db.find? fun s => s.ID == id0 && s.ProjectID == pid with
      | none => Except.error ApiError.notFound
      | some projectState => updateStatesSequenceLoop pid
          (save db { projectState with Sequence := toInt32 ((idx : Int) + 1) })
          rest (idx + 1)) = _
    cases hfind : db.find? fun s => s.ID == id0 && s.ProjectID == pid with
    | none => rw [hfind] at hfindsome; cases hfindsome
    | some s1 =>
      have hs1mem : s1 ∈ db := List.mem_of_find?_eq_some hfind
      have hs1p := List.find?_some hfind
      simp only [Bool.and_eq_true, beq_iff_eq] at hs1p
      have hs1id : s1.ID = id0 := hs1p.1
      have hcovr : ∀ id ∈ rest, ∃ s ∈
          save db { s1 with Sequence := toInt32 ((idx : Int) + 1) },
          s.ID = id ∧ s.ProjectID = pid := by
        intro id' hid'
        obtain ⟨t, ht, htid, htpid⟩ := hcov id' (List.mem_cons_of_mem id0 hid')
        by_cases hb : t.ID = s1.ID
        · refine ⟨{ s1 with Sequence := toInt32 ((idx : Int) + 1) },
            List.mem_map.mpr ⟨t, ht, by simp [beq_iff_eq.mpr hb]⟩, ?_, hs1p.2⟩
          show s1.ID = id'
          rw [← hb, htid]
        · exact ⟨t, List.mem_map.mpr ⟨t, ht, by simp [hb]⟩, htid, htpid⟩
      have hdbid1 : ((save db { s1 with Sequence := toInt32 ((idx : Int) + 1) }).map
          (·.ID)).Nodup := by
        rw [save_map_ID]
        exact hdbid
      have hEQ : applyReorder rest (idx + 1)
          (save db { s1 with Sequence := toInt32 ((idx : Int) + 1) })
          = applyReorder (id0 :: rest) idx db := by
        unfold applyReorder
        rw [save, List.map_map]
        refine List.map_congr_left fun s hsdb => ?_
        rw [Function.comp_apply]
        by_cases hcase : s.ID = id0
        · have hss1 : s = s1 := eq_of_ID_eq hdbid hsdb hs1mem (by rw [hcase, hs1id])
          have hbeq : (s.ID == s1.ID) = true := beq_iff_eq.mpr (by rw [hcase, hs1id])
          have hnotinrest : ¬({ s1 with Sequence := toInt32 ((idx : Int) + 1) }.ID ∈ rest) := by
            show ¬s1.ID ∈ rest
            rw [hs1id]
            exact hnd0
          have hinall : s.ID ∈ id0 :: rest := by
            rw [hcase]
            exact List.mem_cons_self id0 rest
          simp only [hbeq, if_true, if_neg hnotinrest, if_pos hinall]
          have hidx0 : List.indexOf s.ID (id0 :: rest) = 0 := by
            rw [hcase]
            exact List.indexOf_cons_self id0 rest
          have harg : (idx : Int) + ((0 : Nat) : Int) + 1 = (idx : Int) + 1 := by omega
          rw [hidx0, hss1, harg]
        · have hbeq : (s.ID == s1.ID) = false := by
            simp only [beq_eq_false_iff_ne, ne_eq]
            intro hEq2
            exact hcase (by rw [hEq2, hs1id])
          simp only [hbeq, Bool.false_eq_true, if_false]
          by_cases hmem : s.ID ∈ rest
          · have hmemall : s.ID ∈ id0 :: rest := List.mem_cons_of_mem id0 hmem
            simp only [if_pos hmem, if_pos hmemall]
            have hidx : List.indexOf s.ID (id0 :: rest) = (List.indexOf s.ID rest) + 1 :=
              List.indexOf_cons_ne rest (fun hEq2 => hcase hEq2.symm)
            have harg2 : (((idx + 1 : Nat)) : Int) + ((List.indexOf s.ID rest : Nat) : Int) + 1
                = (idx : Int) + (((List.indexOf s.ID rest + 1 : Nat)) : Int) + 1 := by
              push_cast
              ring
            rw [hidx, harg2]
          · have hmemall : ¬s.ID ∈ id0 :: rest := by
              intro hc
              rcases List.mem_cons.mp hc with hEq2 | hr
              · exact hcase hEq2
              · exact hmem hr
            simp only [if_neg hmem, if_neg hmemall]
      exact (ih (idx + 1) _ hndr hcovr hdbid1).trans (congrArg Except.ok hEQ)


theorem dense_applyReorder {db : List ProjectState} {pid : Nat} {ids : List Nat}
    (hid : (db.map (·.ID)).Nodup)
    (hperm : List.Perm ((liveStates db pid).map (·.ID)) ids)
    (h31 : ((ids.length : Nat) : Int) < 2 ^ 31) :
    dense (liveSequences (applyReorder ids 0 db) pid) := by
  have hidsnodup : ids.Nodup :=
    (List.Perm.nodup_iff hperm).mp (nodup_ID_liveStates hid pid)
  have hpres : ∀ s ∈ db,
      ((if s.ID ∈ ids then
          { s with Sequence := toInt32 (((0 : Nat) : Int) + (ids.indexOf s.ID : Int) + 1) }
        else s).ProjectID = s.ProjectID) ∧
      ((if s.ID ∈ ids then
          { s with Sequence := toInt32 (((0 : Nat) : Int) + (ids.indexOf s.ID : Int) + 1) }
        else s).DeletedAt = s.DeletedAt) := by
    intro s _
    refine ⟨?_, ?_⟩
    · split
      · rfl
      · rfl
    · split
      · rfl
      · rfl
  have h1 : liveStates (applyReorder ids 0 db) pid
      = (liveStates db pid).map fun s =>
        if s.ID ∈ ids then
          { s with Sequence := toInt32 (((0 : Nat) : Int) + (ids.indexOf s.ID : Int) + 1) }
        else s := by
    unfold applyReorder
    exact liveStates_map_of_preserve hpres pid
  have h2 : liveSequences (applyReorder ids 0 db) pid
      = (liveStates db pid).map fun s =>
        toInt32 (((0 : Nat) : Int) + (ids.indexOf s.ID : Int) + 1) := by
    show (liveStates (applyReorder ids 0 db) pid).map (·.Sequence) = _
    rw [h1, List.map_map]
    refine List.map_congr_left fun s hs => ?_
    rw [Function.comp_apply]
    have hsid : s.ID ∈ ids := by
      refine (List.Perm.mem_iff hperm).mp ?_
      exact List.mem_map.mpr ⟨s, hs, rfl⟩
    rw [if_pos hsid]
  have h3 : (liveStates db pid).map (fun s =>
        toInt32 (((0 : Nat) : Int) + (ids.indexOf s.ID : Int) + 1))
      = ((liveStates db pid).map (·.ID)).map fun id =>
        toInt32 (((0 : Nat) : Int) + (ids.indexOf id : Int) + 1) := by
    rw [List.map_map]
    refine List.map_congr_left fun s _ => ?_
    rw [Function.comp_apply]
  have h4 : List.Perm
      (((liveStates db pid).map (·.ID)).map fun id =>
        toInt32 (((0 : Nat) : Int) + (ids.indexOf id : Int) + 1))
      (ids.map fun id => toInt32 (((0 : Nat) : Int) + (ids.indexOf id : Int) + 1)) :=
    List.Perm.map _ hperm
  have h5 : (ids.map fun id => toInt32 (((0 : Nat) : Int) + (ids.indexOf id : Int) + 1))
      = denseTarget ids.length := by
    have hcomp : (ids.map fun id => toInt32 (((0 : Nat) : Int) + (ids.indexOf id : Int) + 1))
        = (ids.map fun id => ids.indexOf id).map
          fun k : Nat => toInt32 (((0 : Nat) : Int) + (k : Int) + 1) := by
      rw [List.map_map]
      refine List.map_congr_left fun id _ => ?_
      rw [Function.comp_apply]
    rw [hcomp, map_indexOf_self hidsnodup]
    unfold denseTarget
    refine List.map_congr_left fun k hk => ?_
    have hkl : k < ids.length := List.mem_range.mp hk
    rw [toInt32_eq_self (by omega) (by omega)]
    omega
  have hfinal : List.Perm (liveSequences (applyReorder ids 0 db) pid)
      (denseTarget ids.length) := by
    rw [h2, h3, ← h5]
    exact h4
  have hlength : (liveSequences (applyReorder ids 0 db) pid).length = ids.length := by
    rw [hfinal.length_eq]
    unfold denseTarget
    rw [List.length_map, List.length_range]
  show List.Perm _ (denseTarget (liveSequences (applyReorder ids 0 db) pid).length)
  rw [hlength]
  exact hfinal


theorem delete_notFound {db : List ProjectState} {issues : List Issue}
    {pid sid : Nat} {now : Int}
    (hfind : db.find? (fun s => s.ID == sid && s.ProjectID == pid && s.DeletedAt == none)
      = none) :
    DeleteProjectStateByID db issues pid sid now = .error .notFound := by
  unfold DeleteProjectStateByID
  rw [hfind]

theorem delete_conflict {db : List ProjectState} {issues : List Issue}
    {pid sid : Nat} {now : Int} {s1 : ProjectState}
    (hfind : db.find? (fun s => s.ID == sid && s.ProjectID == pid && s.DeletedAt == none)
      = some s1)
    (hc : 0 < (issues.filter fun i => i.StateID == sid && i.DeletedAt == none).length) :
    DeleteProjectStateByID db issues pid sid now = .error .conflict := by
  unfold DeleteProjectStateByID
  rw [hfind]
  show (if 0 < (issues.filter fun i => i.StateID == sid && i.DeletedAt == none).length
    then Except.error ApiError.conflict
    else Except.ok (compactProjectStates (save db { s1 with DeletedAt := some now }) pid)) = _
  rw [if_pos hc]

theorem delete_ok {db : List ProjectState} {issues : List Issue}
    {pid sid : Nat} {now : Int} {s1 : ProjectState}
    (hfind : db.find? (fun s => s.ID == sid && s.ProjectID == pid && s.DeletedAt == none)
      = some s1)
    (hc : ¬0 < (issues.filter fun i => i.StateID == sid && i.DeletedAt == none).length) :
    DeleteProjectStateByID db issues pid sid now
      = .ok (compactProjectStates (save db { s1 with DeletedAt := some now }) pid) := by
  unfold DeleteProjectStateByID
  rw [hfind]
  show (if 0 < (issues.filter fun i => i.StateID == sid && i.DeletedAt == none).length
    then Except.error ApiError.conflict
    else Except.ok (compactProjectStates (save db { s1 with DeletedAt := some now }) pid)) = _
  rw [if_neg hc]

theorem delete_ok_elim {db : List ProjectState} {issues : List Issue}
    {pid sid : Nat} {now : Int} {res : List ProjectState × List Nat}
    (hok : DeleteProjectStateByID db issues pid sid now = .ok res) :
    ∃ s1, db.find? (fun s => s.ID == sid && s.ProjectID == pid && s.DeletedAt == none)
        = some s1 ∧
      res = compactProjectStates (save db { s1 with DeletedAt := some now }) pid := by
  cases hfind : db.find? fun s => s.ID == sid && s.ProjectID == pid && s.DeletedAt == none with
  | none =>
    rw [delete_notFound hfind] at hok
    exact Except.noConfusion hok
  | some s1 =>
    by_cases hc : 0 < (issues.filter fun i => i.StateID == sid && i.DeletedAt == none).length
    · rw [delete_conflict hfind hc] at hok
      exact Except.noConfusion hok
    · rw [delete_ok hfind hc] at hok
      exact ⟨s1, rfl, (Except.ok.inj hok).symm⟩

theorem dense_delete {db : List ProjectState} {issues : List Issue}
    {pid sid : Nat} {now : Int} {res : List ProjectState × List Nat}
    (hid : (db.map (·.ID)).Nodup) (h31 : ((db.length : Nat) : Int) < 2 ^ 31)
    (hok : DeleteProjectStateByID db issues pid sid now = .ok res) :
    dense (liveSequences res.1 pid) := by
  obtain ⟨s1, hfind, hres⟩ := delete_ok_elim hok
  rw [hres]
  have hid1 : ((save db { s1 with DeletedAt := some now }).map (·.ID)).Nodup := by
    rw [save_map_ID]
    exact hid
  refine dense_compact hid1 pid ?_
  have hle : (liveStates (save db { s1 with DeletedAt := some now }) pid).length
      ≤ (save db { s1 with DeletedAt := some now }).length :=
    List.length_filter_le _ _
  have hlen : (save db { s1 with DeletedAt := some now }).length = db.length :=
    save_length db _
  omega

theorem denseTarget_succ (n : Nat) :
    denseTarget (n + 1) = denseTarget n ++ [(n : Int) + 1] := by
  unfold denseTarget
  rw [List.range_succ, List.map_append, List.map_cons, List.map_nil]

theorem dense_create {db : List ProjectState} {pid : Nat}
    (hnodel : ∀ s ∈ db, s.ProjectID = pid → s.DeletedAt = none)
    (hdense : dense (liveSequences db pid))
    (h31 : (((db.filter fun s => s.ProjectID == pid).length : Nat) : Int) + 1 < 2 ^ 31)
    (newID : Nat) (name : String) :
    dense (liveSequences (CreateProjectState db pid newID name).1 pid) := by
  have hcount : (db.filter fun s => s.ProjectID == pid) = liveStates db pid := by
    unfold liveStates
    refine filter_eq_of_mem fun s hs => ?_
    by_cases hp : s.ProjectID = pid
    · have hd : s.DeletedAt = none := hnodel s hs hp
      simp [hp, hd]
    · simp [hp]
  have h2PID : (CreateProjectState db pid newID name).2.ProjectID = pid := rfl
  have h2DA : (CreateProjectState db pid newID name).2.DeletedAt = none := rfl
  have h2Seq : (CreateProjectState db pid newID name).2.Sequence
      = toInt32 (((db.filter fun s => s.ProjectID == pid).length : Int) + 1) := rfl
  have hlive : liveStates (CreateProjectState db pid newID name).1 pid
      = liveStates db pid ++ [(CreateProjectState db pid newID name).2] := by
    show liveStates (db ++ [(CreateProjectState db pid newID name).2]) pid = _
    unfold liveStates
    rw [List.filter_append]
    refine congrArg
      (fun x : List ProjectState =>
        (db.filter fun s => s.ProjectID == pid && s.DeletedAt == none) ++ x) ?_
    simp [List.filter, h2PID, h2DA]
  have hN : (liveStates db pid).length = (db.filter fun s => s.ProjectID == pid).length := by
    rw [hcount]
  have hseq : liveSequences (CreateProjectState db pid newID name).1 pid
      = liveSequences db pid ++ [(CreateProjectState db pid newID name).2.Sequence] := by
    show (liveStates (CreateProjectState db pid newID name).1 pid).map (·.Sequence) = _
    rw [hlive, List.map_append, List.map_cons, List.map_nil]
    rfl
  have h32 : (CreateProjectState db pid newID name).2.Sequence
      = ((db.filter fun s => s.ProjectID == pid).length : Int) + 1 := by
    rw [h2Seq]
    exact toInt32_eq_self (by omega) h31
  have hlenseq : (liveSequences db pid).length = (liveStates db pid).length := by
    show (List.map _ _).length = _
    rw [List.length_map]
  have htargets : denseTarget ((liveStates db pid).length + 1)
      = denseTarget (liveStates db pid).length
        ++ [((liveStates db pid).length : Int) + 1] := denseTarget_succ _
  have hperm1 : List.Perm (liveSequences db pid) (denseTarget (liveStates db pid).length) := by
    have hd := hdense
    unfold dense at hd
    rw [hlenseq] at hd
    exact hd
  have hfinal : List.Perm (liveSequences (CreateProjectState db pid newID name).1 pid)
      (denseTarget ((liveStates db pid).length + 1)) := by
    rw [hseq, htargets, h32, ← hN]
    exact List.Perm.append hperm1 (List.Perm.refl _)
  have hlength : (liveSequences (CreateProjectState db pid newID name).1 pid).length
      = (liveStates db pid).length + 1 := by
    rw [hseq, List.length_append, hlenseq]
    rfl
  show List.Perm _
    (denseTarget (liveSequences (CreateProjectState db pid newID name).1 pid).length)
  rw [hlength]
  exact hfinal


theorem range_map_toInt32_denseTarget {n : Nat} (h : ((n : Nat) : Int) < 2 ^ 31) :
    (List.range n).map (fun k : Nat => toInt32 (((0 : Nat) : Int) + (k : Int) + 1))
      = denseTarget n := by
  unfold denseTarget
  refine List.map_congr_left fun k hk => ?_
  have hkl : k < n := List.mem_range.mp hk
  rw [toInt32_eq_self (by omega) (by omega)]
  omega

theorem sort_filter_comm {l : List ProjectState} (hnd : (l.map (·.Sequence)).Nodup)
    (q : ProjectState → Bool) :
    List.insertionSort stateLE (l.filter q)
      = (List.insertionSort stateLE l).filter q := by
  have hperm : List.Perm (List.insertionSort stateLE (l.filter q))
      ((List.insertionSort stateLE l).filter q) := by
    refine (List.perm_insertionSort stateLE (l.filter q)).trans ?_
    exact (List.Perm.filter q (List.perm_insertionSort stateLE l)).symm
  have hsortl : List.Sorted stateLT (List.insertionSort stateLE l) :=
    sorted_lt_of_sorted_le (sorted_le_insertionSort l)
      ((List.Perm.nodup_iff (List.Perm.map _ (List.perm_insertionSort stateLE l))).mpr hnd)
  have hsortr : List.Sorted stateLT ((List.insertionSort stateLE l).filter q) :=
    List.Sorted.filter q hsortl
  have hndf : ((l.filter q).map (·.Sequence)).Nodup :=
    List.Nodup.sublist (List.Sublist.map _ (List.filter_sublist l)) hnd
  have hsortlf : List.Sorted stateLT (List.insertionSort stateLE (l.filter q)) :=
    sorted_lt_of_sorted_le (sorted_le_insertionSort _)
      ((List.Perm.nodup_iff (List.Perm.map _ (List.perm_insertionSort stateLE _))).mpr hndf)
  exact List.eq_of_perm_of_sorted hperm hsortlf hsortr


/-! ### Claim theorems -/

/-- C2, counterexample: with one soft-deleted state (max live sequence 0) the
claim predicts sequence 1, but `CreateProjectState` counts the removed state too
and assigns 2. -/
theorem C2_counterexample :
    (CreateProjectState [⟨7, 1, "x", 1, some 0⟩] 1 8 "y").2.Sequence
      ≠ maxLiveStateSeq [⟨7, 1, "x", 1, some 0⟩] 1 + 1 := by
  decide

/-- C2 (amended): CreateProjectState assigns the new state's Sequence as the
count of ALL states of the project — soft-deleted ones included — plus 1
(within the int32 range). -/
theorem C2_amended (db : List ProjectState) (pid newID : Nat) (name : String)
    (h31 : (((db.filter fun s => s.ProjectID == pid).length : Nat) : Int) + 1 < 2 ^ 31) :
    (CreateProjectState db pid newID name).2.Sequence
      = (((db.filter fun s => s.ProjectID == pid).length : Nat) : Int) + 1 := by
  show toInt32 _ = _
  exact toInt32_eq_self (by omega) h31

/-- Witness for C2_amended at a concrete table with one removed state. -/
theorem C2_amended_witness :
    (CreateProjectState [⟨7, 1, "x", 1, some 0⟩] 1 8 "y").2.Sequence = 2 := by
  have h := C2_amended [⟨7, 1, "x", 1, some 0⟩] 1 8 "y" (by decide)
  exact h.trans (by decide)

/-- C5, counterexample: at the int32 boundary (max live sequence_id 2147483647)
the Go conversion `int32(sequenceID)` wraps to -2147483648 instead of M + 1. -/
theorem C5_counterexample :
    (CreateIssue [⟨1, 1, 5, 2147483647, none⟩] 1 2 5).2.SequenceID
      ≠ maxSequenceID [⟨1, 1, 5, 2147483647, none⟩] 1 + 1 := by
  decide

/-- C5 (amended): CreateIssue assigns SequenceID = M + 1 where M is the maximum
sequence_id among the project's non-deleted issues (M = 0 when there are none),
for every M with 0 ≤ M and M + 1 < 2^31. -/
theorem C5_amended (issues : List Issue) (pid newID stID : Nat)
    (h0 : 0 ≤ maxSequenceID issues pid) (h31 : maxSequenceID issues pid + 1 < 2 ^ 31) :
    (CreateIssue issues pid newID stID).2.SequenceID = maxSequenceID issues pid + 1 := by
  show toInt32 _ = _
  exact toInt32_eq_self (by omega) h31

/-- Witness for C5_amended on an empty project (M = 0). -/
theorem C5_amended_witness :
    (CreateIssue [] 1 1 1).2.SequenceID = maxSequenceID [] 1 + 1 :=
  C5_amended [] 1 1 1 (by decide) (by decide)

/-- C6, counterexample: create an issue (SequenceID 1), delete it, create a
second issue — the second, distinct issue also receives SequenceID 1, because
the max is taken over non-deleted issues only and no resequencing occurs. -/
theorem C6_counterexample :
    (CreateIssue [] 1 10 5).2.SequenceID = 1 ∧
    DeleteIssue (CreateIssue [] 1 10 5).1 1 10 20 = .ok [⟨10, 1, 5, 1, some 20⟩] ∧
    (CreateIssue [⟨10, 1, 5, 1, some 20⟩] 1 11 5).2.SequenceID = 1 ∧ (10 : Nat) ≠ 11 := by
  decide

/-- C6 (amended): at creation time the new issue's SequenceID is strictly
greater than that of every non-deleted issue of the project (so no two
simultaneously-live issues share one), but a deleted issue's SequenceID can be
reused by a later issue. -/
theorem C6_amended (issues : List Issue) (pid newID stID : Nat)
    (h0 : 0 ≤ maxSequenceID issues pid) (h31 : maxSequenceID issues pid + 1 < 2 ^ 31) :
    ∀ i ∈ issues, i.ProjectID = pid → i.DeletedAt = none →
      i.SequenceID < (CreateIssue issues pid newID stID).2.SequenceID := by
  intro i hi hpid hda
  have hle : i.SequenceID ≤ maxSequenceID issues pid := by
    refine le_maxSeqOf ?_
    refine List.mem_map.mpr ⟨i, ?_, rfl⟩
    rw [List.mem_filter]
    exact ⟨hi, by simp [hpid, hda]⟩
  have hnew : (CreateIssue issues pid newID stID).2.SequenceID
      = maxSequenceID issues pid + 1 := by
    show toInt32 _ = _
    exact toInt32_eq_self (by omega) h31
  omega

/-- Witness for C6_amended: a live issue with SequenceID 1 is strictly below the
newly assigned SequenceID. -/
theorem C6_amended_witness :
    (⟨1, 1, 5, 1, none⟩ : Issue).SequenceID
      < (CreateIssue [⟨1, 1, 5, 1, none⟩] 1 2 5).2.SequenceID :=
  C6_amended [⟨1, 1, 5, 1, none⟩] 1 2 5 (by decide) (by decide)
    ⟨1, 1, 5, 1, none⟩ (by decide) rfl rfl

/-- C10: deleting a state that is still referenced by a non-deleted issue
aborts with Conflict; the error rolls the transaction back, so no row is
modified (in this embedding an error carries no table at all). -/
theorem C10_conflict (db : List ProjectState) (issues : List Issue)
    (pid sid : Nat) (now : Int)
    (hstate : ∃ s ∈ db, s.ID = sid ∧ s.ProjectID = pid ∧ s.DeletedAt = none)
    (hissue : ∃ i ∈ issues, i.StateID = sid ∧ i.DeletedAt = none) :
    DeleteProjectStateByID db issues pid sid now = .error .conflict := by
  have hfs : (db.find? fun s =>
      s.ID == sid && s.ProjectID == pid && s.DeletedAt == none).isSome := by
    obtain ⟨s, hs, h1, h2, h3⟩ := hstate
    exact List.find?_isSome.mpr ⟨s, hs, by simp [h1, h2, h3]⟩
  cases hfind : db.find? fun s =>
      s.ID == sid && s.ProjectID == pid && s.DeletedAt == none with
  | none => rw [hfind] at hfs; cases hfs
  | some s1 =>
    refine delete_conflict hfind ?_
    obtain ⟨i, hi, h1, h2⟩ := hissue
    have hmem : i ∈ issues.filter fun i => i.StateID == sid && i.DeletedAt == none :=
      List.mem_filter.mpr ⟨hi, by simp [h1, h2]⟩
    exact List.length_pos_of_mem hmem

/-- Witness for C10_conflict: one live state referenced by one live issue. -/
theorem C10_conflict_witness :
    DeleteProjectStateByID [⟨1, 1, "a", 1, none⟩] [⟨9, 1, 1, 1, none⟩] 1 1 99
      = .error .conflict :=
  C10_conflict [⟨1, 1, "a", 1, none⟩] [⟨9, 1, 1, 1, none⟩] 1 1 99 (by decide) (by decide)


/-- C7, counterexample: the reorder list references the soft-deleted state 2,
yet the operation succeeds (no NotFound) and resequences the removed state —
the fetch in the loop has no deleted_at filter. -/
theorem C7_counterexample :
    UpdateProjectStatesSequence [⟨1, 1, "a", 1, none⟩, ⟨2, 1, "b", 2, some 5⟩] 1 [2, 1]
        = .ok [⟨1, 1, "a", 2, none⟩, ⟨2, 1, "b", 1, some 5⟩] ∧
      UpdateProjectStatesSequence [⟨1, 1, "a", 1, none⟩, ⟨2, 1, "b", 2, some 5⟩] 1 [2, 1]
        ≠ .error .notFound := by
  decide

/-- C7 (amended): UpdateProjectStatesSequence signals NotFound (and rolls the
whole batch back) exactly when a listed id has no state row in the project at
all; ids of soft-deleted states are found and resequenced like live ones. -/
theorem C7_amended :
    (∀ (db : List ProjectState) (pid : Nat) (ids : List Nat),
      (∃ id ∈ ids, ∀ s ∈ db, ¬(s.ID = id ∧ s.ProjectID = pid)) →
      UpdateProjectStatesSequence db pid ids = .error .notFound) ∧
    (∀ (db : List ProjectState) (pid : Nat) (ids : List Nat),
      (∀ id ∈ ids, ∃ s ∈ db, s.ID = id ∧ s.ProjectID = pid) →
      ∃ db', UpdateProjectStatesSequence db pid ids = .ok db') :=
  ⟨fun db pid ids h => @loop_error_of_missing pid ids 0 db h,
   fun db pid ids h => @loop_ok_of_allFound pid ids 0 db h⟩

/-- Witness for C7_amended: a nonexistent id aborts with NotFound; a
soft-deleted state's id is accepted. -/
theorem C7_amended_witness :
    UpdateProjectStatesSequence [⟨1, 1, "a", 1, none⟩] 1 [2] = .error .notFound ∧
      UpdateProjectStatesSequence [⟨1, 1, "a", 1, some 3⟩] 1 [1]
        = .ok [⟨1, 1, "a", 1, some 3⟩] := by
  constructor
  case _ =>
    exact C7_amended.1 [⟨1, 1, "a", 1, none⟩] 1 [2] (by decide)
  case _ =>
    obtain ⟨db', heq⟩ := C7_amended.2 [⟨1, 1, "a", 1, some 3⟩] 1 [1] (by decide)
    have hlit : UpdateProjectStatesSequence [⟨1, 1, "a", 1, some 3⟩] 1 [1]
        = .ok [⟨1, 1, "a", 1, some 3⟩] := by decide
    exact hlit

/-- C3, counterexample: a reorder list missing state 1 is not rejected: the
call succeeds and changes state 2's sequence from 2 to 1 — the sequences do not
stay unchanged as the claim requires. -/
theorem C3_counterexample :
    UpdateProjectStatesSequence [⟨1, 1, "a", 1, none⟩, ⟨2, 1, "b", 2, none⟩] 1 [2]
        = .ok [⟨1, 1, "a", 1, none⟩, ⟨2, 1, "b", 1, none⟩] ∧
      ([⟨1, 1, "a", 1, none⟩, ⟨2, 1, "b", 1, none⟩] : List ProjectState)
        ≠ [⟨1, 1, "a", 1, none⟩, ⟨2, 1, "b", 2, none⟩] := by
  decide

/-- C3 (amended): a list containing an id with no matching state in the project
aborts the whole batch with NotFound (full rollback, sequences unchanged); a
complete permutation [C,A,B] of states at sequences {1,2,3} yields C=1, A=2,
B=3; but lists missing some of the project's states, or with duplicate ids, are
not rejected — they are applied as-is to the listed states only. -/
theorem C3_amended :
    (∀ (db : List ProjectState) (pid : Nat) (ids : List Nat),
      (∃ id ∈ ids, ∀ s ∈ db, ¬(s.ID = id ∧ s.ProjectID = pid)) →
      UpdateProjectStatesSequence db pid ids = .error .notFound) ∧
    UpdateProjectStatesSequence
        [⟨1, 1, "a", 1, none⟩, ⟨2, 1, "b", 2, none⟩, ⟨3, 1, "c", 3, none⟩] 1 [3, 1, 2]
      = .ok [⟨1, 1, "a", 2, none⟩, ⟨2, 1, "b", 3, none⟩, ⟨3, 1, "c", 1, none⟩] :=
  ⟨fun db pid ids h => @loop_error_of_missing pid ids 0 db h, by decide⟩

/-- Witness for C3_amended: a foreign id (5, not in the project) aborts with
NotFound. -/
theorem C3_amended_witness :
    UpdateProjectStatesSequence [⟨1, 1, "a", 1, none⟩] 1 [5] = .error .notFound :=
  C3_amended.1 [⟨1, 1, "a", 1, none⟩] 1 [5] (by decide)

/-- C8, counterexample: deleting state 3 from sequences [1,2,3] leaves states 1
and 2 with computed sequences equal to their stored ones, yet both are written
(write list [1,2], not []). -/
theorem C8_counterexample :
    DeleteProjectStateByID
        [⟨1, 1, "a", 1, none⟩, ⟨2, 1, "b", 2, none⟩, ⟨3, 1, "c", 3, none⟩] [] 1 3 9
      = .ok ([⟨1, 1, "a", 1, none⟩, ⟨2, 1, "b", 2, none⟩, ⟨3, 1, "c", 3, some 9⟩],
          [1, 2]) := by
  decide

/-- C8 (amended): the compaction loop writes every remaining live state of the
project — the written ids are exactly the ids of the remaining live states,
whether or not the computed sequence differs from the stored one. -/
theorem C8_amended (db : List ProjectState) (issues : List Issue) (pid sid : Nat)
    (now : Int) (res : List ProjectState × List Nat)
    (hid : (db.map (·.ID)).Nodup)
    (hok : DeleteProjectStateByID db issues pid sid now = .ok res) :
    List.Perm res.2 ((liveStates res.1 pid).map (·.ID)) := by
  obtain ⟨s1, hfind, hres⟩ := delete_ok_elim hok
  have hid1 : ((save db { s1 with DeletedAt := some now }).map (·.ID)).Nodup := by
    rw [save_map_ID]
    exact hid
  rw [hres]
  exact (List.Perm.map _ (liveStates_compact_perm hid1 pid)).symm

/-- Witness for C8_amended at the concrete deletion of state 3 from [1,2,3]. -/
theorem C8_amended_witness :
    List.Perm
      (([⟨1, 1, "a", 1, none⟩, ⟨2, 1, "b", 2, none⟩, ⟨3, 1, "c", 3, some 9⟩],
          ([1, 2] : List Nat)) :
        List ProjectState × List Nat).2
      ((liveStates
        (([⟨1, 1, "a", 1, none⟩, ⟨2, 1, "b", 2, none⟩, ⟨3, 1, "c", 3, some 9⟩],
            ([1, 2] : List Nat)) :
          List ProjectState × List Nat).1 1).map (·.ID)) :=
  C8_amended
    [⟨1, 1, "a", 1, none⟩, ⟨2, 1, "b", 2, none⟩, ⟨3, 1, "c", 3, none⟩] [] 1 3 9
    _ (by decide) (by decide)

/-- C9, counterexample: running the compaction a second time on a project with
one live state writes that row again (write list [1], not empty). -/
theorem C9_counterexample :
    (compactProjectStates (compactProjectStates [⟨1, 1, "a", 1, none⟩] 1).1 1).2 = [1] ∧
      ([1] : List Nat) ≠ [] := by
  decide

/-- C9 (amended): compaction is idempotent on values — the second run changes
no state's Sequence and leaves the table unchanged — but it performs the same
writes as the first run (every remaining live row), not none. -/
theorem C9_amended (db : List ProjectState) (pid : Nat)
    (hid : (db.map (·.ID)).Nodup)
    (h31 : (((liveStates db pid).length : Nat) : Int) < 2 ^ 31) :
    (compactProjectStates (compactProjectStates db pid).1 pid).1
        = (compactProjectStates db pid).1 ∧
      (compactProjectStates (compactProjectStates db pid).1 pid).2
        = (compactProjectStates db pid).2 :=
  compact_idem hid pid h31

/-- Witness for C9_amended on a two-state project. -/
theorem C9_amended_witness :
    (compactProjectStates
        (compactProjectStates [⟨1, 1, "a", 1, none⟩, ⟨2, 1, "b", 2, none⟩] 1).1 1).1
        = (compactProjectStates [⟨1, 1, "a", 1, none⟩, ⟨2, 1, "b", 2, none⟩] 1).1 ∧
      (compactProjectStates
        (compactProjectStates [⟨1, 1, "a", 1, none⟩, ⟨2, 1, "b", 2, none⟩] 1).1 1).2
        = (compactProjectStates [⟨1, 1, "a", 1, none⟩, ⟨2, 1, "b", 2, none⟩] 1).2 :=
  C9_amended [⟨1, 1, "a", 1, none⟩, ⟨2, 1, "b", 2, none⟩] 1 (by decide) (by decide)


/-- C1, counterexample: a project with one soft-deleted state; creating a new
state counts the removed one too and assigns sequence 2, so the single live
state has sequence set {2}, not {1}. -/
theorem C1_counterexample :
    ¬ dense (liveSequences (CreateProjectState [⟨7, 1, "x", 1, some 0⟩] 1 8 "y").1 1) := by
  decide

/-- C1 (amended): after a successful DeleteProjectStateByID the live sequences
of the project are exactly {1..N}.  After CreateProjectState they are {1..N}
provided the project has no soft-deleted states and the invariant held before.
After UpdateProjectStatesSequence they are {1..N} provided the submitted list
is a duplicate-free permutation of exactly the live states' ids.  (Tables are
assumed to have pairwise-distinct primary keys and int32-representable sizes.) -/
theorem C1_amended :
    (∀ (db : List ProjectState) (issues : List Issue) (pid sid : Nat) (now : Int)
      (res : List ProjectState × List Nat),
      (db.map (·.ID)).Nodup → ((db.length : Nat) : Int) < 2 ^ 31 →
      DeleteProjectStateByID db issues pid sid now = .ok res →
      dense (liveSequences res.1 pid)) ∧
    (∀ (db : List ProjectState) (pid newID : Nat) (name : String),
      (∀ s ∈ db, s.ProjectID = pid → s.DeletedAt = none) →
      dense (liveSequences db pid) →
      (((db.filter fun s => s.ProjectID == pid).length : Nat) : Int) + 1 < 2 ^ 31 →
      dense (liveSequences (CreateProjectState db pid newID name).1 pid)) ∧
    (∀ (db : List ProjectState) (pid : Nat) (ids : List Nat),
      (db.map (·.ID)).Nodup →
      List.Perm ((liveStates db pid).map (·.ID)) ids →
      ((ids.length : Nat) : Int) < 2 ^ 31 →
      ∃ db', UpdateProjectStatesSequence db pid ids = .ok db' ∧
        dense (liveSequences db' pid)) := by
  refine ⟨?_, ?_, ?_⟩
  · intro db issues pid sid now res hid h31 hok
    exact dense_delete hid h31 hok
  · intro db pid newID name hnodel hdense h31
    exact dense_create hnodel hdense h31 newID name
  · intro db pid ids hid hperm h31
    have hidsnodup : ids.Nodup :=
      (List.Perm.nodup_iff hperm).mp (nodup_ID_liveStates hid pid)
    have hcov : ∀ id ∈ ids, ∃ s ∈ db, s.ID = id ∧ s.ProjectID = pid := by
      intro id hidm
      have hmm : id ∈ (liveStates db pid).map (·.ID) := (List.Perm.mem_iff hperm).mpr hidm
      obtain ⟨s, hs, hsid⟩ := List.mem_map.mp hmm
      have hm := mem_liveStates.mp hs
      exact ⟨s, hm.1, hsid, hm.2.1⟩
    have hloop := loop_eq_applyReorder ids 0 db hidsnodup hcov hid
    exact ⟨applyReorder ids 0 db, hloop, dense_applyReorder hid hperm h31⟩

/-- Witness for C1_amended: a concrete delete, create, and full-permutation
reorder, each landing in a dense configuration. -/
theorem C1_amended_witness :
    dense (liveSequences
        (([⟨1, 1, "a", 1, some 99⟩, ⟨2, 1, "b", 1, none⟩], ([2] : List Nat)) :
          List ProjectState × List Nat).1 1) ∧
      dense (liveSequences (CreateProjectState [⟨1, 1, "a", 1, none⟩] 1 2 "c").1 1) ∧
      (UpdateProjectStatesSequence [⟨1, 1, "a", 1, none⟩, ⟨2, 1, "b", 2, none⟩] 1 [2, 1]
          = .ok [⟨1, 1, "a", 2, none⟩, ⟨2, 1, "b", 1, none⟩] ∧
        dense (liveSequences [⟨1, 1, "a", 2, none⟩, ⟨2, 1, "b", 1, none⟩] 1)) := by
  refine ⟨?_, ?_, ?_⟩
  · exact C1_amended.1 [⟨1, 1, "a", 1, none⟩, ⟨2, 1, "b", 2, none⟩] [] 1 1 99
      ([⟨1, 1, "a", 1, some 99⟩, ⟨2, 1, "b", 1, none⟩], [2]) (by decide) (by decide) (by decide)
  · exact C1_amended.2.1 [⟨1, 1, "a", 1, none⟩] 1 2 "c" (by decide) (by decide) (by decide)
  · obtain ⟨db', heq, hdense⟩ := C1_amended.2.2
      [⟨1, 1, "a", 1, none⟩, ⟨2, 1, "b", 2, none⟩] 1 [2, 1] (by decide) (by decide) (by decide)
    have hlit : UpdateProjectStatesSequence
        [⟨1, 1, "a", 1, none⟩, ⟨2, 1, "b", 2, none⟩] 1 [2, 1]
        = .ok [⟨1, 1, "a", 2, none⟩, ⟨2, 1, "b", 1, none⟩] := by decide
    have hdb : db' = [⟨1, 1, "a", 2, none⟩, ⟨2, 1, "b", 1, none⟩] :=
      Except.ok.inj (heq.symm.trans hlit)
    exact ⟨hlit, hdb ▸ hdense⟩


/-- C4: compaction after removal loads the remaining live states ordered by
sequence and renumbers them 1..N in that order.  Concretely, removing the state
with sequence 2 from [1,2,3,4] leaves the others at [1,2,3] (former 1 to 1,
3 to 2, 4 to 3); in general, on success the live states sorted by their new
sequences carry exactly 1..N, and their id order equals the pre-delete
sequence-ascending order with the deleted state removed. -/
theorem C4_compaction :
    (DeleteProjectStateByID
        [⟨1, 1, "a", 1, none⟩, ⟨2, 1, "b", 2, none⟩, ⟨3, 1, "c", 3, none⟩,
          ⟨4, 1, "d", 4, none⟩] [] 1 2 99
      = .ok ([⟨1, 1, "a", 1, none⟩, ⟨2, 1, "b", 2, some 99⟩, ⟨3, 1, "c", 2, none⟩,
          ⟨4, 1, "d", 3, none⟩], [1, 3, 4])) ∧
    (∀ (db : List ProjectState) (issues : List Issue) (pid sid : Nat) (now : Int)
      (res : List ProjectState × List Nat),
      (db.map (·.ID)).Nodup → (liveSequences db pid).Nodup →
      ((db.length : Nat) : Int) < 2 ^ 31 →
      DeleteProjectStateByID db issues pid sid now = .ok res →
      ((List.insertionSort stateLE (liveStates res.1 pid)).map (·.Sequence)
          = denseTarget (liveStates res.1 pid).length) ∧
        ((List.insertionSort stateLE (liveStates res.1 pid)).map (·.ID)
          = ((List.insertionSort stateLE (liveStates db pid)).filter
              fun s => !(s.ID == sid)).map (·.ID))) := by
  refine ⟨by decide, ?_⟩
  intro db issues pid sid now res hid hseqnd h31 hok
  obtain ⟨s1, hfind, hres⟩ := delete_ok_elim hok
  have hs1p := List.find?_some hfind
  simp only [Bool.and_eq_true, beq_iff_eq] at hs1p
  have hdead : ({ s1 with DeletedAt := some now } : ProjectState).DeletedAt ≠ none := by
    simp
  have hid1 : ((save db { s1 with DeletedAt := some now }).map (·.ID)).Nodup := by
    rw [save_map_ID]
    exact hid
  have hbound1 : (((liveStates (save db { s1 with DeletedAt := some now }) pid).length :
      Nat) : Int) < 2 ^ 31 := by
    have hle : (liveStates (save db { s1 with DeletedAt := some now }) pid).length
        ≤ (save db { s1 with DeletedAt := some now }).length := List.length_filter_le _ _
    have hlen : (save db { s1 with DeletedAt := some now }).length = db.length :=
      save_length db _
    omega
  have hsort : List.insertionSort stateLE (liveStates res.1 pid)
      = resequenceFrom 0 (List.insertionSort stateLE
        (liveStates (save db { s1 with DeletedAt := some now }) pid)) := by
    rw [hres]
    exact sort_live_compact hid1 pid hbound1
  have hlen1 : (List.insertionSort stateLE
      (liveStates (save db { s1 with DeletedAt := some now }) pid)).length
      = (liveStates (save db { s1 with DeletedAt := some now }) pid).length :=
    (List.perm_insertionSort stateLE _).length_eq
  have hlen2 : (liveStates res.1 pid).length
      = (liveStates (save db { s1 with DeletedAt := some now }) pid).length := by
    rw [hres]
    rw [(liveStates_compact_perm hid1 pid).length_eq, resequenceFrom_length, hlen1]
  constructor
  case _ =>
    rw [hsort, resequenceFrom_map_Sequence, hlen1, hlen2]
    exact range_map_toInt32_denseTarget hbound1
  case _ =>
    rw [hsort, resequenceFrom_map_ID]
    have hlive1 : liveStates (save db { s1 with DeletedAt := some now }) pid
        = (liveStates db pid).filter
          fun s => !(s.ID == ({ s1 with DeletedAt := some now } : ProjectState).ID) :=
      liveStates_save_dead hdead db pid
    have hfun : (fun s : ProjectState =>
        !(s.ID == ({ s1 with DeletedAt := some now } : ProjectState).ID))
        = fun s : ProjectState => !(s.ID == sid) := by
      funext s
      show (!(s.ID == s1.ID)) = (!(s.ID == sid))
      rw [hs1p.1.1]
    rw [hlive1, hfun, sort_filter_comm hseqnd]

/-- Witness for C4_compaction's general part: removing the state with sequence
2 from states 1..4. -/
theorem C4_compaction_witness :
    ((List.insertionSort stateLE (liveStates
        (([⟨1, 1, "a", 1, none⟩, ⟨2, 1, "b", 2, some 99⟩, ⟨3, 1, "c", 2, none⟩,
            ⟨4, 1, "d", 3, none⟩], ([1, 3, 4] : List Nat)) :
          List ProjectState × List Nat).1 1)).map (·.Sequence)
        = denseTarget (liveStates
          (([⟨1, 1, "a", 1, none⟩, ⟨2, 1, "b", 2, some 99⟩, ⟨3, 1, "c", 2, none⟩,
              ⟨4, 1, "d", 3, none⟩], ([1, 3, 4] : List Nat)) :
            List ProjectState × List Nat).1 1).length)
      ∧ ((List.insertionSort stateLE (liveStates
          (([⟨1, 1, "a", 1, none⟩, ⟨2, 1, "b", 2, some 99⟩, ⟨3, 1, "c", 2, none⟩,
              ⟨4, 1, "d", 3, none⟩], ([1, 3, 4] : List Nat)) :
            List ProjectState × List Nat).1 1)).map (·.ID)
        = ((List.insertionSort stateLE (liveStates
            [⟨1, 1, "a", 1, none⟩, ⟨2, 1, "b", 2, none⟩, ⟨3, 1, "c", 3, none⟩,
              ⟨4, 1, "d", 4, none⟩] 1)).filter
            fun s => !(s.ID == 2)).map (·.ID)) :=
  C4_compaction.2
    [⟨1, 1, "a", 1, none⟩, ⟨2, 1, "b", 2, none⟩, ⟨3, 1, "c", 3, none⟩, ⟨4, 1, "d", 4, none⟩]
    [] 1 2 99 _ (by decide) (by decide) (by decide) (by decide)

end Workflow
